import Mathlib

/-!
A shallow embedding of the singly-linked list library in `src/list.h`
(the canonical variant guarded by `LIST_IMPLEMENTATION`).

Modelling conventions:
* A `List **root` argument is modelled as `Option (List α)`: `none` is a
  NULL root pointer (no slot), `some l` is a valid slot holding the chain
  whose payloads are `l` in traversal order; `some []` is the empty chain.
* The process-wide `errno` slot is passed explicitly: every function takes
  the current `Errno` and returns the (possibly updated) value.
* A pointer to a node inside a chain is modelled as the suffix of the
  payload list starting at that node (`getNode`).
* Node allocations are assumed to succeed except where a claim is about
  allocation failure (the IO reader, whose allocator is driven by an
  explicit outcome stream).  Push functions additionally report the number
  of nodes they allocated, so that "fails without allocating" is statable.
* `list_push_by_index` returns an `Option`: `none` models the undefined
  behaviour (NULL-pointer dereference of `previous_node`) that the C code
  exhibits when `list_get_by_index` fails to find the predecessor node.
-/

/-- Models `errno`: `noError` is the initial zero value; the other
constructors are the error codes the library assigns. -/
inductive Errno where
  | noError
  | EINVAL
  | ENOMEM
  | EIO
  | ECANCELED
deriving DecidableEq, Repr

/-- Models the `DeallocationMode` enum: `WEAK` frees only the node,
`STRONG` frees the payload as well.  The mode has no effect on chain
content, only on payload memory. -/
inductive DeallocationMode where
  | WEAK
  | STRONG
deriving DecidableEq, Repr

/-- Models the `ListDataType` enum. -/
inductive ListDataType where
  | INT
  | CHAR
  | FLOAT
  | STRING
  | DOUBLE
  | LONG_INT
  | SHORT_INT
  | LONG_DOUBLE
  | SIGNED_CHAR
  | UNSIGNED_INT
  | UNSIGNED_CHAR
  | LONG_LONG_INT
  | UNSIGNED_LONG_INT
  | UNSIGNED_LONG_LONG_INT
deriving DecidableEq, Repr

/-- Models the traversal loop of `list_get_by_index` (list.h:576): walks
`index` nodes from the head and returns the node found there, as the
suffix of the chain starting at that node; `none` models the NULL return
when the index is out of range.  (The `current_index > index` early exit
in the source is unreachable, since the equality test returns first.) -/
def getNode {α : Type u} : List α → Nat → Option (List α)
  | [], _ => none
  | x :: t, 0 => some (x :: t)
  | _ :: t, n + 1 => getNode t n

/-- Models `list_get_by_index` (list.h:576-595): NULL `root` sets `EINVAL`
and returns NULL; otherwise the walk neither touches `errno` nor the
chain. -/
def list_get_by_index {α : Type u} (root : Option (List α)) (index : Nat)
    (e : Errno) : Option (List α) × Errno :=
  match root with
  | none => (none, Errno.EINVAL)
  | some l => (getNode l index, e)

/-- Models the walk of `list_get_last` (list.h:639-650): the suffix at the
last node of a chain. -/
def lastSuffix {α : Type u} : List α → List α
  | [] => []
  | [x] => [x]
  | _ :: y :: t => lastSuffix (y :: t)

/-- Models `list_get_last` (list.h:639-650): NULL root or empty chain sets
`EINVAL` and returns NULL; otherwise returns the last node. -/
def list_get_last {α : Type u} (root : Option (List α)) (e : Errno) :
    Option (List α) × Errno :=
  match root with
  | none => (none, Errno.EINVAL)
  | some [] => (none, Errno.EINVAL)
  | some (x :: t) => (some (lastSuffix (x :: t)), e)

/-- Models `list_push_front` (list.h:386-397).  Result components: success
flag, new chain, new errno, number of nodes allocated. -/
def list_push_front {α : Type u} (root : Option (List α)) (d : α)
    (e : Errno) : Bool × Option (List α) × Errno × Nat :=
  match root with
  | none => (false, none, Errno.EINVAL, 0)
  | some l => (true, some (d :: l), e, 1)

/-- Models `list_push_back` (list.h:367-384): allocates the node, then
locates the insertion point via `list_get_last` — whose `EINVAL` on an
empty chain leaks into `errno` even though the push succeeds. -/
def list_push_back {α : Type u} (root : Option (List α)) (d : α)
    (e : Errno) : Bool × Option (List α) × Errno × Nat :=
  match root with
  | none => (false, none, Errno.EINVAL, 0)
  | some l =>
    match list_get_last (some l) e with
    | (none, e2) => (true, some [d], e2, 1)
    | (some _, e2) => (true, some (l ++ [d]), e2, 1)

/-- Models `list_push_by_index` (list.h:399-421).  On a nonempty chain
with nonzero `index` the source computes
`previous_node = list_get_by_index(root, index - 1)` and immediately
dereferences `previous_node->next` with no NULL check: when the
predecessor lookup fails the behaviour is undefined, modelled as `none`.
Splicing after the predecessor yields `take index ++ d :: drop index`. -/
def list_push_by_index {α : Type u} (root : Option (List α)) (d : α)
    (index : Nat) (e : Errno) :
    Option (Bool × Option (List α) × Errno × Nat) :=
  match root with
  | none => some (false, none, Errno.EINVAL, 0)
  | some [] =>
    if index ≠ 0 then some (false, some [], e, 0)
    else some (list_push_front (some []) d e)
  | some (x :: t) =>
    if index = 0 then some (list_push_front (some (x :: t)) d e)
    else
      match getNode (x :: t) (index - 1) with
      | none => none
      | some _ =>
        some (true, some ((x :: t).take index ++ d :: (x :: t).drop index),
          e, 1)

/-- Models `list_pop_front` (list.h:446-457): NULL root or empty chain
sets `EINVAL`; otherwise the head node is released and the root advances. -/
def list_pop_front {α : Type u} (root : Option (List α))
    (mode : DeallocationMode) (e : Errno) : Bool × Option (List α) × Errno :=
  match root with
  | none => (false, none, Errno.EINVAL)
  | some [] => (false, some [], Errno.EINVAL)
  | some (_ :: t) => (true, some t, e)

/-- Models the predecessor/current walk of `list_pop_back`
(list.h:423-444): drops the last element of a chain. -/
def removeLast {α : Type u} : List α → List α
  | [] => []
  | [_] => []
  | x :: y :: t => x :: removeLast (y :: t)

/-- Models `list_pop_back` (list.h:423-444). -/
def list_pop_back {α : Type u} (root : Option (List α))
    (mode : DeallocationMode) (e : Errno) : Bool × Option (List α) × Errno :=
  match root with
  | none => (false, none, Errno.EINVAL)
  | some [] => (false, some [], Errno.EINVAL)
  | some [_] => (true, some [], e)
  | some (x :: y :: t) => (true, some (removeLast (x :: y :: t)), e)

/-- Models `list_pop_by_index` (list.h:459-477): index 0 delegates to
`list_pop_front`; otherwise the predecessor is located via the
`list_get_by_index` walk, and a missing predecessor or a predecessor with
no successor yields `false` with `errno` untouched.  Unlinking the target
yields `take index ++ drop (index + 1)`.  (`getNode` never returns an
empty suffix, so that branch is unreachable.) -/
def list_pop_by_index {α : Type u} (root : Option (List α))
    (mode : DeallocationMode) (index : Nat) (e : Errno) :
    Bool × Option (List α) × Errno :=
  match root with
  | none => (false, none, Errno.EINVAL)
  | some [] => (false, some [], Errno.EINVAL)
  | some (x :: t) =>
    match index with
    | 0 => list_pop_front (some (x :: t)) mode e
    | k + 1 =>
      match getNode (x :: t) k with
      | none => (false, some (x :: t), e)
      | some [] => (false, some (x :: t), e)
      | some [_] => (false, some (x :: t), e)
      | some (_ :: _ :: _) =>
        (true, some ((x :: t).take (k + 1) ++ (x :: t).drop (k + 2)), e)

/-- Models the `while (list_pop_front(root, mode)) { }` loop of
`list_deallocate` (list.h:483-490): each iteration pops the head; the loop
only stops when the pop on the emptied chain fails, and that failing call
is the one that sets `errno`. -/
def deallocLoop {α : Type u} : List α → DeallocationMode → Errno →
    List α × Errno
  | [], mode, e => ([], (list_pop_front (some ([] : List α)) mode e).2.2)
  | x :: t, mode, e =>
    deallocLoop t mode (list_pop_front (some (x :: t)) mode e).2.2

/-- Models `list_deallocate` (list.h:483-490). -/
def list_deallocate {α : Type u} (root : Option (List α))
    (mode : DeallocationMode) (e : Errno) : Bool × Option (List α) × Errno :=
  match root with
  | none => (false, none, Errno.EINVAL)
  | some l =>
    match deallocLoop l mode e with
    | (l2, e2) => (true, some l2, e2)

/-- Models the counting loop of `list_get_length` (list.h:682-693). -/
def lengthLoop {α : Type u} : List α → Nat → Nat
  | [], n => n
  | _ :: t, n => lengthLoop t (n + 1)

/-- Models `list_get_length` (list.h:682-693): NULL root sets `EINVAL`
and returns 0; an empty chain returns 0 with `errno` untouched. -/
def list_get_length {α : Type u} (root : Option (List α)) (e : Errno) :
    Nat × Errno :=
  match root with
  | none => (0, Errno.EINVAL)
  | some l => (lengthLoop l 0, e)

/-- Models the digit-accumulation loop of C `atoi`: consumes decimal
digits and stops at the first non-digit.  (Overflow is C undefined
behaviour, so unbounded `Int` accumulation is a faithful model on the
in-range inputs the library handles.) -/
def atoiDigits : List Char → Int → Int
  | [], acc => acc
  | c :: cs, acc =>
    if c.isDigit then atoiDigits cs (acc * 10 + ((c.toNat : Int) - 48))
    else acc

/-- The character class C `isspace` accepts (space, tab, newline,
vertical tab, form feed, carriage return). -/
def isSpaceChar (c : Char) : Bool :=
  c == ' ' || c == '\t' || c == '\n' || c == Char.ofNat 11 ||
    c == Char.ofNat 12 || c == '\r'

/-- Models C `atoi`: skip leading whitespace, optional sign, then decimal
digits; returns 0 when no digits are found. -/
def atoi (s : String) : Int :=
  match s.data.dropWhile isSpaceChar with
  | '-' :: cs => - atoiDigits cs 0
  | '+' :: cs => atoiDigits cs 0
  | cs => atoiDigits cs 0

/-- Models `strncmp(s, "0", 1) == 0` as used in
`list_convert_strings_to_int_ptrs` (list.h:507): true exactly when the
first byte of `s` is the character 0 (an empty string compares its
terminator against the digit and differs). -/
def strncmpFirstZero (s : String) : Bool :=
  match s.data with
  | [] => false
  | c :: _ => c == '0'

/-- The per-node failure test of `list_convert_strings_to_int_ptrs`
(list.h:507): the parsed value is 0 and the first byte is not the
character 0. -/
def badIntString (s : String) : Bool :=
  (atoi s == 0) && !(strncmpFirstZero s)

/-- Models the conversion loop of `list_convert_strings_to_int_ptrs`
(list.h:498-515): every node's string payload is replaced by its `atoi`
value; a failed parse sets `errno` to `EINVAL` and forces the final
result to `false`, but the loop continues. -/
def convertLoop : List String → Errno → Bool → List Int × Errno × Bool
  | [], e, r => ([], e, r)
  | s :: rest, e, r =>
    let n := atoi s
    let bad : Bool := (n == 0) && !(strncmpFirstZero s)
    let e2 := if bad then Errno.EINVAL else e
    let r2 := if bad then false else r
    match convertLoop rest e2 r2 with
    | (tail, e3, r3) => (n :: tail, e3, r3)

/-- Models `list_convert_strings_to_int_ptrs` (list.h:492-518): NULL root
or empty chain sets `EINVAL` and returns `false`; otherwise the loop runs
over every node.  The converted chain holds integers, so the result chain
is a `List Int`. -/
def list_convert_strings_to_int_ptrs (root : Option (List String))
    (e : Errno) : Bool × Option (List Int) × Errno :=
  match root with
  | none => (false, none, Errno.EINVAL)
  | some [] => (false, some [], Errno.EINVAL)
  | some (s :: rest) =>
    match convertLoop (s :: rest) e true with
    | (l2, e2, r) => (r, some l2, e2)

/-- Models the inner scan of `list_remove_duplicate_int`
(list.h:530-540): walks `j` from the successor of the outer node carrying
the running position `temp`; returns the position of the first node equal
to the outer value, or `none`. -/
def innerScan (x : Int) : List Int → Nat → Option Nat
  | [], _ => none
  | j :: rest, temp =>
    if x ≠ j then innerScan x rest (temp + 1) else some temp

/-- Models the outer scan of `list_remove_duplicate_int`
(list.h:526-543): for each node at position `idx`, scan its successors;
the first hit yields the position of the later node of the first
duplicate pair. -/
def findDup : List Int → Nat → Option Nat
  | [], _ => none
  | x :: rest, idx =>
    match innerScan x rest (idx + 1) with
    | some t => some t
    | none => findDup rest (idx + 1)

/-- Models `list_remove_duplicate_int` (list.h:520-546): NULL root or
empty chain sets `EINVAL`; the first duplicate found is removed via
`list_pop_by_index` and the function returns `true` immediately; with no
duplicate pair it returns `false` with `errno` untouched. -/
def list_remove_duplicate_int (root : Option (List Int))
    (mode : DeallocationMode) (e : Errno) : Bool × Option (List Int) × Errno :=
  match root with
  | none => (false, none, Errno.EINVAL)
  | some [] => (false, some [], Errno.EINVAL)
  | some (x :: t) =>
    match findDup (x :: t) 0 with
    | some pos =>
      match list_pop_by_index (some (x :: t)) mode pos e with
      | (_, root2, e2) => (true, root2, e2)
    | none => (false, some (x :: t), e)

/-- Models `list_remove_duplicate` (list.h:548-559): dispatches on the
data type; only `INT` is implemented, anything else sets `ECANCELED`. -/
def list_remove_duplicate (root : Option (List Int))
    (mode : DeallocationMode) (data_type : ListDataType) (e : Errno) :
    Bool × Option (List Int) × Errno :=
  match data_type with
  | ListDataType.INT => list_remove_duplicate_int root mode e
  | _ => (false, root, Errno.ECANCELED)

/-- Fuel-indexed model of the `while (removed)` loop of
`list_remove_duplicates` (list.h:563-567): one call to
`list_remove_duplicate` per iteration, repeated while it reports a
removal.  Each removal shortens the chain, so any fuel beyond the initial
chain length is never consumed (`removeDupsLoop_fuel_stable`). -/
def removeDupsLoop (mode : DeallocationMode) (data_type : ListDataType) :
    Nat → Option (List Int) → Errno → Option (List Int) × Errno
  | 0, root, e => (root, e)
  | fuel + 1, root, e =>
    match list_remove_duplicate root mode data_type e with
    | (true, root2, e2) => removeDupsLoop mode data_type fuel root2 e2
    | (false, root2, e2) => (root2, e2)

/-- Chain length held in a root slot (0 for a NULL slot). -/
def rootLength : Option (List Int) → Nat
  | none => 0
  | some l => l.length

/-- Models `list_remove_duplicates` (list.h:561-570): iterates single
removals until none happens, then reports `errno == 0` as the overall
result. -/
def list_remove_duplicates (root : Option (List Int))
    (mode : DeallocationMode) (data_type : ListDataType) (e : Errno) :
    Bool × Option (List Int) × Errno :=
  match removeDupsLoop mode data_type (rootLength root + 1) root e with
  | (root2, e2) => ((e2 == Errno.noError), root2, e2)

/-- Environment oracle for one `list_read_line_as_string` call: either
the node and buffer allocations succeed and `fgets` yields a line, or the
call fails at one of its three fallible points (node allocation, buffer
allocation, `fgets`). -/
inductive ReadOutcome where
  | line (s : String)
  | eofFail
  | nodeAllocFail
  | stringAllocFail
deriving DecidableEq, Repr

/-- State threaded through the IO reader: the stream of per-call outcomes
(an exhausted stream behaves as end of input), the number of live heap
objects (each node and each string buffer counts as one), and `errno`. -/
structure IOState where
  input : List ReadOutcome
  live : Nat
  err : Errno
deriving DecidableEq, Repr

/-- Models `list_read_line_as_string` (list.h:699-725): zero
`buffer_size` sets `EINVAL` before anything is allocated or read; a node
allocation failure sets `ENOMEM`; a buffer allocation failure sets
`ENOMEM` and releases the node; an `fgets` failure sets `EIO` and
releases both the node and the buffer.  A successful call returns the
read line and leaves a node plus a string buffer live (+2). -/
def list_read_line_as_string (buffer_size : Nat) (st : IOState) :
    Option String × IOState :=
  if buffer_size = 0 then (none, { st with err := Errno.EINVAL })
  else
    match st.input with
    | [] => (none, { st with err := Errno.EIO })
    | outcome :: rest =>
      match outcome with
      | ReadOutcome.nodeAllocFail =>
        (none, { st with input := rest, err := Errno.ENOMEM })
      | ReadOutcome.stringAllocFail =>
        (none, { st with input := rest, err := Errno.ENOMEM })
      | ReadOutcome.eofFail =>
        (none, { st with input := rest, err := Errno.EIO })
      | ReadOutcome.line s =>
        (some s, { st with input := rest, live := st.live + 2 })

/-- Models the chaining loop of `list_read_lines_as_string`
(list.h:737-748): `k` remaining reads are appended to the accumulated
chain `acc`; on a failed read the whole chain built so far is released
with `list_deallocate(&result, STRONG)` (every node and its string
payload, `2 * acc.length` live objects) and `errno` is set to `ENOMEM`. -/
def readLinesLoop (buffer_size : Nat) :
    Nat → List String → IOState → Option (List String) × IOState
  | 0, acc, st => (some acc, st)
  | k + 1, acc, st =>
    match list_read_line_as_string buffer_size st with
    | (some s, st2) => readLinesLoop buffer_size k (acc ++ [s]) st2
    | (none, st2) =>
      (none, { st2 with live := st2.live - 2 * acc.length,
                        err := Errno.ENOMEM })

/-- Models `list_read_lines_as_string` (list.h:727-751): `count == 0`
sets `EINVAL` before any read; a failed first read propagates as-is; a
failure later in the loop releases everything read so far. -/
def list_read_lines_as_string (buffer_size count : Nat) (st : IOState) :
    Option (List String) × IOState :=
  if count = 0 then (none, { st with err := Errno.EINVAL })
  else
    match list_read_line_as_string buffer_size st with
    | (none, st2) => (none, st2)
    | (some s, st2) => readLinesLoop buffer_size (count - 1) [s] st2


/-! ### Supporting lemmas -/

theorem lengthLoop_eq {α : Type u} : ∀ (l : List α) (n : Nat), lengthLoop l n = l.length + n := by
  intro l
  induction l with
  | nil => intro n; simp [lengthLoop]
  | cons x t ih => intro n; simp [lengthLoop, ih]; omega

theorem deallocLoop_eq {α : Type u} : ∀ (l : List α) (mode : DeallocationMode) (e : Errno), deallocLoop l mode e = ([], Errno.EINVAL) := by
  intro l
  induction l with
  | nil => intro mode e; rfl
  | cons x t ih => intro mode e; exact ih mode _

theorem getNode_eq_drop {α : Type u} : ∀ (l : List α) (n : Nat), n < l.length → getNode l n = some (l.drop n) := by
  intro l
  induction l with
  | nil => intro n h; simp at h
  | cons x t ih =>
    intro n h
    cases n with
    | zero => rfl
    | succ m => exact ih m (by simpa using h)

theorem getNode_eq_none {α : Type u} : ∀ (l : List α) (n : Nat), l.length ≤ n → getNode l n = none := by
  intro l
  induction l with
  | nil => intro n h; rfl
  | cons x t ih =>
    intro n h
    cases n with
    | zero => simp at h
    | succ m => exact ih m (by simpa using h)

theorem removeLast_append {α : Type u} : ∀ (l : List α) (d : α), removeLast (l ++ [d]) = l := by
  intro l
  induction l with
  | nil => intro d; rfl
  | cons x t ih =>
    intro d
    cases t with
    | nil => rfl
    | cons y t2 =>
      have h := ih d
      simp only [List.cons_append] at h ⊢
      simp only [removeLast]
      rw [h]

theorem pop_by_index_in_range {α : Type u} (l : List α) (mode : DeallocationMode) (k : Nat) (e : Errno) (h1 : 1 ≤ k) (h2 : k < l.length) : list_pop_by_index (some l) mode k e = (true, some (l.take k ++ l.drop (k + 1)), e) := by
  cases l with
  | nil => simp at h2
  | cons x t =>
    cases k with
    | zero => omega
    | succ m =>
      have hm : m < (x :: t).length := by omega
      have hg : getNode (x :: t) m = some ((x :: t).drop m) := getNode_eq_drop _ m hm
      have hlen : 2 ≤ ((x :: t).drop m).length := by
        rw [List.length_drop]
        omega
      obtain ⟨a, r1, hr1⟩ : ∃ a r1, (x :: t).drop m = a :: r1 := by
        cases hd : (x :: t).drop m with
        | nil => rw [hd] at hlen; simp at hlen
        | cons a r1 => exact ⟨a, r1, rfl⟩
      obtain ⟨b, r2, hr2⟩ : ∃ b r2, r1 = b :: r2 := by
        cases hd : r1 with
        | nil => rw [hr1, hd] at hlen; simp at hlen
        | cons b r2 => exact ⟨b, r2, rfl⟩
      rw [hr2] at hr1
      simp [list_pop_by_index, hg, hr1]

/-! ### Claim theorems -/

/-- C1: the claim says `list_push_by_index` on a non-empty list with an
index strictly greater than the length returns `false`, leaves the chain
unchanged and weakly releases the allocated node.  The code instead
dereferences the NULL `previous_node` returned by `list_get_by_index`:
for every non-empty chain `x :: l` and every index greater than its
length (`length + 1 + m`) the call is undefined behaviour (`none`),
exactly as at the concrete failing input `[5]` with index 2. -/
theorem push_by_index_oob_is_ub (x : Int) (l : List Int) (d : Int) (m : Nat) (e : Errno) : list_push_by_index (some (x :: l)) d ((x :: l).length + 1 + m) e = none ∧ list_push_by_index (some [(5 : Int)]) 7 2 Errno.noError = none := by
  constructor
  · have hidx : (x :: l).length + 1 + m = (l.length + 1 + m) + 1 := by
      simp only [List.length_cons]
      omega
    have hg : getNode (x :: l) (l.length + 1 + m) = none :=
      getNode_eq_none _ _ (by simp only [List.length_cons]; omega)
    rw [hidx]
    simp [list_push_by_index, hg]
  · rfl

/-- C5: pushing a payload onto the back of a non-empty chain `x :: t` and
immediately popping the back under the same mode restores the original
content and length, and neither step disturbs the error indicator. -/
theorem push_back_pop_back_roundtrip (α : Type) (x : α) (t : List α) (d : α) (mode : DeallocationMode) (e : Errno) : list_push_back (some (x :: t)) d e = (true, some ((x :: t) ++ [d]), e, 1) ∧ list_pop_back (some ((x :: t) ++ [d])) mode e = (true, some (x :: t), e) := by
  constructor
  · rfl
  · cases t with
    | nil => rfl
    | cons y t2 =>
      have h := removeLast_append (x :: y :: t2) d
      simp only [List.cons_append] at h ⊢
      simp [list_pop_back, h]

/-- C6: `list_push_by_index` with index 0 agrees with `list_push_front`
on every root (NULL, empty, or non-empty), and on an empty chain any
nonzero index `m + 1` fails with `false` while allocating no node and
leaving the error indicator unchanged. -/
theorem push_by_index_zero_is_push_front (α : Type) (root : Option (List α)) (d : α) (m : Nat) (e : Errno) : list_push_by_index root d 0 e = some (list_push_front root d e) ∧ list_push_by_index (some ([] : List α)) d (m + 1) e = some (false, some [], e, 0) := by
  constructor
  · cases root with
    | none => rfl
    | some l => cases l with
      | nil => rfl
      | cons x t => rfl
  · rfl

/-- C7: `list_pop_by_index` with index 0 is exactly `list_pop_front`; a
NULL root slot or an empty chain yields `false` with `EINVAL`; and on a
non-empty chain every out-of-range index (`length + m`) yields `false`
with the error indicator untouched, so the two failure kinds are
distinguished by the error side channel. -/
theorem pop_by_index_error_distinction (α : Type) (root : Option (List α)) (x : α) (t : List α) (mode : DeallocationMode) (k m : Nat) (e : Errno) : list_pop_by_index root mode 0 e = list_pop_front root mode e ∧ list_pop_by_index (none : Option (List α)) mode k e = (false, none, Errno.EINVAL) ∧ list_pop_by_index (some ([] : List α)) mode k e = (false, some [], Errno.EINVAL) ∧ list_pop_by_index (some (x :: t)) mode ((x :: t).length + m) e = (false, some (x :: t), e) := by
  refine ⟨?_, ?_, ?_, ?_⟩
  · cases root with
    | none => rfl
    | some l => cases l with
      | nil => rfl
      | cons y t2 => rfl
  · cases k with
    | zero => rfl
    | succ k2 => rfl
  · cases k with
    | zero => rfl
    | succ k2 => rfl
  · cases m with
    | zero =>
      have hidx : (x :: t).length + 0 = t.length + 1 := by simp
      rw [hidx]
      have hg : getNode (x :: t) t.length = some ((x :: t).drop t.length) :=
        getNode_eq_drop _ _ (by simp)
      have hlen : ((x :: t).drop t.length).length = 1 := by
        rw [List.length_drop]
        simp
      obtain ⟨a, ha⟩ : ∃ a, (x :: t).drop t.length = [a] := by
        cases hd : (x :: t).drop t.length with
        | nil => rw [hd] at hlen; simp at hlen
        | cons a r =>
          cases r with
          | nil => exact ⟨a, rfl⟩
          | cons b r2 => rw [hd] at hlen; simp at hlen
      simp [list_pop_by_index, hg, ha]
    | succ m2 =>
      have hidx : (x :: t).length + (m2 + 1) = (t.length + m2 + 1) + 1 := by
        simp only [List.length_cons]
        omega
      rw [hidx]
      have hg : getNode (x :: t) (t.length + m2 + 1) = none :=
        getNode_eq_none _ _ (by simp only [List.length_cons]; omega)
      simp [list_pop_by_index, hg]

/-- C8: `list_get_length` counts the nodes of every chain; it returns 0
with the error indicator untouched on an empty chain, and 0 with `EINVAL`
on a NULL root slot, so the zero return alone cannot distinguish the two. -/
theorem get_length_zero_ambiguous (α : Type) (l : List α) (e : Errno) : list_get_length (some l) e = (l.length, e) ∧ list_get_length (none : Option (List α)) e = (0, Errno.EINVAL) ∧ list_get_length (some ([] : List α)) e = (0, e) := by
  refine ⟨?_, rfl, rfl⟩
  simp [list_get_length, lengthLoop_eq]

/-- C9: `list_deallocate` on a valid root slot — including an already
empty chain — returns `true` with the chain emptied, yet always leaves
the error indicator at `EINVAL`, because its loop only stops when the
inner `list_pop_front` fails on the emptied chain and that failing pop
sets the indicator. -/
theorem deallocate_clobbers_errno (α : Type) (l : List α) (mode : DeallocationMode) (e : Errno) : list_deallocate (some l) mode e = (true, some ([] : List α), Errno.EINVAL) ∧ list_pop_front (some ([] : List α)) mode e = (false, some [], Errno.EINVAL) := by
  constructor
  · simp [list_deallocate, deallocLoop_eq]
  · rfl

/-- C10: `list_push_back` onto an empty chain succeeds and installs the
new node as root, but `list_get_last` — which it uses to locate the
insertion point — treats the empty chain as an error, so the successful
push leaves the error indicator at `EINVAL`. -/
theorem push_back_empty_sets_einval (α : Type) (d : α) (e : Errno) : list_push_back (some ([] : List α)) d e = (true, some [d], Errno.EINVAL, 1) ∧ list_get_last (some ([] : List α)) e = (none, Errno.EINVAL) := ⟨rfl, rfl⟩

theorem convertLoop_eq : ∀ (l : List String) (e : Errno) (r : Bool), convertLoop l e r = (l.map atoi, (if l.any badIntString then Errno.EINVAL else e), (r && !(l.any badIntString))) := by
  intro l
  induction l with
  | nil => intro e r; simp [convertLoop]
  | cons s rest ih =>
    intro e r
    simp only [convertLoop, ih]
    rw [show ((atoi s == 0) && !(strncmpFirstZero s)) = badIntString s from rfl]
    cases hb : badIntString s with
    | true => simp [List.any_cons, hb]
    | false => simp [List.any_cons, hb]

/-- C2 (amended): `list_convert_strings_to_int_ptrs` replaces every
node's payload with its parsed integer and never aborts early; a node is
flagged (error indicator `EINVAL`, overall result `false`) exactly when
its text parses to zero and its first byte is not the character 0 — the
source checks `strncmp(s, "0", 1)`, i.e. only the first byte, not literal
equality with `"0"`.  On `["10", "x", "3"]` the call returns `false` with
the first and third nodes holding 10 and 3. -/
theorem convert_strings_partial_progress (l : List String) (e : Errno) (h : l ≠ []) : list_convert_strings_to_int_ptrs (some l) e = ((!(l.any badIntString)), some (l.map atoi), (if l.any badIntString then Errno.EINVAL else e)) ∧ list_convert_strings_to_int_ptrs (some ["10", "x", "3"]) Errno.noError = (false, some [10, 0, 3], Errno.EINVAL) := by
  constructor
  · cases l with
    | nil => exact absurd rfl h
    | cons s rest =>
      simp only [list_convert_strings_to_int_ptrs, convertLoop_eq]
      simp
  · rfl

/-- C2 witness: a clean one-node list exercises the general statement. -/
theorem convert_strings_partial_progress_w : list_convert_strings_to_int_ptrs (some ["7"]) Errno.noError = (true, some [7], Errno.noError) := by
  have h := (convert_strings_partial_progress ["7"] Errno.noError (by decide)).1
  rw [h]
  decide

/-- C2 counterexample: `"00"` parses to zero and is not literally `"0"`,
yet the conversion neither flags it nor fails — the claim's "parses to
zero without being literally the one-character string 0" condition does not match the
code's first-byte check. -/
theorem convert_strings_counterexample : atoi "00" = 0 ∧ "00" ≠ "0" ∧ list_convert_strings_to_int_ptrs (some ["00"]) Errno.noError = (true, some [0], Errno.noError) := by
  refine ⟨rfl, by decide, rfl⟩

theorem read_line_cases (bs : Nat) (st : IOState) : ((list_read_line_as_string bs st).1 = none ∧ (list_read_line_as_string bs st).2.live = st.live) ∨ (∃ s, (list_read_line_as_string bs st).1 = some s ∧ (list_read_line_as_string bs st).2.live = st.live + 2) := by
  by_cases hbs : bs = 0
  · left; simp [list_read_line_as_string, hbs]
  · cases hin : st.input with
    | nil => left; simp [list_read_line_as_string, hbs, hin]
    | cons o rest =>
      cases o with
      | line s => right; exact ⟨s, by simp [list_read_line_as_string, hbs, hin]⟩
      | eofFail => left; simp [list_read_line_as_string, hbs, hin]
      | nodeAllocFail => left; simp [list_read_line_as_string, hbs, hin]
      | stringAllocFail => left; simp [list_read_line_as_string, hbs, hin]

theorem readLinesLoop_spec (bs : Nat) : ∀ (k : Nat) (acc : List String) (st : IOState) (init : Nat), st.live = init + 2 * acc.length → (((readLinesLoop bs k acc st).1 = none → (readLinesLoop bs k acc st).2.live = init) ∧ (∀ l, (readLinesLoop bs k acc st).1 = some l → l.length = acc.length + k ∧ (readLinesLoop bs k acc st).2.live = init + 2 * l.length)) := by
  intro k
  induction k with
  | zero =>
    intro acc st init hlive
    constructor
    · intro hnone
      simp [readLinesLoop] at hnone
    · intro l hl
      simp [readLinesLoop] at hl
      subst hl
      exact ⟨by simp, by simpa using hlive⟩
  | succ k ih =>
    intro acc st init hlive
    cases hr : list_read_line_as_string bs st with
    | mk r st2 =>
      cases r with
      | some s =>
        have hlive2 : st2.live = st.live + 2 := by
          rcases read_line_cases bs st with ⟨h1, h2⟩ | ⟨s2, h1, h2⟩ <;> rw [hr] at h1 h2
          · simp at h1
          · simpa using h2
        have hrec := ih (acc ++ [s]) st2 init (by simp [hlive2, hlive]; omega)
        constructor
        · intro hnone
          simp only [readLinesLoop, hr] at hnone ⊢
          exact hrec.1 hnone
        · intro l hl
          simp only [readLinesLoop, hr] at hl ⊢
          have := hrec.2 l hl
          refine ⟨?_, this.2⟩
          have hlen := this.1
          simp at hlen
          omega
      | none =>
        have hlive2 : st2.live = st.live := by
          rcases read_line_cases bs st with ⟨h1, h2⟩ | ⟨s2, h1, h2⟩ <;> rw [hr] at h1 h2
          · simpa using h2
          · simp at h1
        constructor
        · intro _
          simp only [readLinesLoop, hr]
          show st2.live - 2 * acc.length = init
          omega
        · intro l hl
          simp only [readLinesLoop, hr] at hl
          simp at hl

/-- C4: if `count` is at least 1 and any single-line read fails, then
`list_read_lines_as_string` returns the absent list and every heap object
allocated during the call has been released again (`live` returns to its
initial value); a successful return carries exactly `count` lines (never
a partial list) with `2 * count` objects live; and `count == 0` fails
with `EINVAL` before reading anything. -/
theorem read_lines_all_or_nothing (bs count : Nat) (st : IOState) (hc : 1 ≤ count) : (((list_read_lines_as_string bs count st).1 = none → (list_read_lines_as_string bs count st).2.live = st.live) ∧ (∀ l, (list_read_lines_as_string bs count st).1 = some l → l.length = count ∧ (list_read_lines_as_string bs count st).2.live = st.live + 2 * count)) ∧ list_read_lines_as_string bs 0 st = (none, { st with err := Errno.EINVAL }) := by
  constructor
  · have hcount : count ≠ 0 := by omega
    cases hr : list_read_line_as_string bs st with
    | mk r st2 =>
      cases r with
      | none =>
        have hlive2 : st2.live = st.live := by
          rcases read_line_cases bs st with ⟨h1, h2⟩ | ⟨s2, h1, h2⟩ <;> rw [hr] at h1 h2
          · simpa using h2
          · simp at h1
        constructor
        · intro _
          simp only [list_read_lines_as_string, if_neg hcount, hr]
          simpa using hlive2
        · intro l hl
          simp only [list_read_lines_as_string, if_neg hcount, hr] at hl
          simp at hl
      | some s =>
        have hlive2 : st2.live = st.live + 2 := by
          rcases read_line_cases bs st with ⟨h1, h2⟩ | ⟨s2, h1, h2⟩ <;> rw [hr] at h1 h2
          · simp at h1
          · simpa using h2
        have hloop := readLinesLoop_spec bs (count - 1) [s] st2 st.live (by simp [hlive2])
        constructor
        · intro hnone
          simp only [list_read_lines_as_string, if_neg hcount, hr] at hnone ⊢
          exact hloop.1 hnone
        · intro l hl
          simp only [list_read_lines_as_string, if_neg hcount, hr] at hl ⊢
          have hres := hloop.2 l hl
          have hlen := hres.1
          simp at hlen
          have hlc : l.length = count := by omega
          have h2 := hres.2
          rw [hlc] at h2
          exact ⟨hlc, h2⟩
  · simp [list_read_lines_as_string]

/-- C4 witness: three requested lines against a stream that fails at the
second read — the call fails and the live-object count returns to its
initial value 5. -/
theorem read_lines_all_or_nothing_w : (list_read_lines_as_string 8 3 ⟨[ReadOutcome.line "a", ReadOutcome.eofFail], 5, Errno.noError⟩).2.live = 5 := (read_lines_all_or_nothing 8 3 ⟨[ReadOutcome.line "a", ReadOutcome.eofFail], 5, Errno.noError⟩ (by decide)).1.1 (by rfl)

theorem innerScan_not_mem (x : Int) : ∀ (js : List Int) (temp : Nat), x ∉ js → innerScan x js temp = none := by
  intro js
  induction js with
  | nil => intro temp h; rfl
  | cons j rest ih =>
    intro temp h
    have hxj : x ≠ j := fun he => h (he ▸ List.mem_cons_self j rest)
    simp only [innerScan, if_pos hxj]
    exact ih (temp + 1) (fun hm => h (List.mem_cons_of_mem _ hm))

theorem innerScan_mem (x : Int) : ∀ (js : List Int), x ∈ js → ∀ (temp : Nat), ∃ k, k < js.length ∧ js.getD k 0 = x ∧ (∀ i, i < k → js.getD i 0 ≠ x) ∧ innerScan x js temp = some (temp + k) := by
  intro js
  induction js with
  | nil => intro h; simp at h
  | cons j rest ih =>
    intro h temp
    by_cases hxj : x = j
    · refine ⟨0, by simp, ?_, ?_, ?_⟩
      · simpa using hxj.symm
      · intro i hi; omega
      · have hne : ¬ (x ≠ j) := by simpa using hxj
        simp [innerScan, if_neg hne]
    · have hmem : x ∈ rest := by
        rcases List.mem_cons.mp h with h1 | h1
        · exact absurd h1 hxj
        · exact h1
      obtain ⟨k, hk1, hk2, hk3, hk4⟩ := ih hmem (temp + 1)
      refine ⟨k + 1, by simp; omega, by simpa using hk2, ?_, ?_⟩
      · intro i hi
        cases i with
        | zero =>
          simp only [List.getD_cons_zero]
          exact fun he => hxj he.symm
        | succ i2 =>
          simp only [List.getD_cons_succ]
          exact hk3 i2 (by omega)
      · simp only [innerScan, if_pos hxj]
        rw [hk4]
        congr 1
        omega

theorem findDup_none_of_nodup : ∀ (l : List Int), l.Nodup → ∀ (idx : Nat), findDup l idx = none := by
  intro l
  induction l with
  | nil => intro h idx; rfl
  | cons x rest ih =>
    intro h idx
    obtain ⟨h1, h2⟩ := List.nodup_cons.mp h
    simp only [findDup, innerScan_not_mem x rest (idx + 1) h1]
    exact ih h2 (idx + 1)

theorem findDup_spec_of_not_nodup : ∀ (l : List Int), ¬ l.Nodup → ∀ (idx : Nat), ∃ s t, s < t ∧ t < l.length ∧ l.getD s 0 = l.getD t 0 ∧ (∀ a b, a < s → a < b → b < l.length → l.getD a 0 ≠ l.getD b 0) ∧ (∀ b, s < b → b < t → l.getD s 0 ≠ l.getD b 0) ∧ findDup l idx = some (idx + t) := by
  intro l
  induction l with
  | nil => intro h; exact absurd List.nodup_nil h
  | cons x rest ih =>
    intro h idx
    by_cases hx : x ∈ rest
    · obtain ⟨k, hk1, hk2, hk3, hk4⟩ := innerScan_mem x rest hx (idx + 1)
      refine ⟨0, k + 1, by omega, by simp; omega, ?_, ?_, ?_, ?_⟩
      · simp only [List.getD_cons_zero, List.getD_cons_succ]
        exact hk2.symm
      · intro a b ha hab hb; omega
      · intro b hb1 hb2
        cases b with
        | zero => omega
        | succ b2 =>
          simp only [List.getD_cons_zero, List.getD_cons_succ]
          exact fun he => hk3 b2 (by omega) he.symm
      · simp only [findDup, hk4]
        congr 1
        omega
    · have hrest : ¬ rest.Nodup := fun hn => h (List.nodup_cons.mpr ⟨hx, hn⟩)
      obtain ⟨s, t, h1, h2, h3, h4, h5, h6⟩ := ih hrest (idx + 1)
      refine ⟨s + 1, t + 1, by omega, by simp; omega, ?_, ?_, ?_, ?_⟩
      · simpa using h3
      · intro a b ha hab hb
        cases a with
        | zero =>
          cases b with
          | zero => omega
          | succ b2 =>
            simp only [List.getD_cons_zero, List.getD_cons_succ]
            intro he
            apply hx
            rw [he]
            have hb2 : b2 < rest.length := by simp at hb; omega
            rw [List.getD_eq_getElem rest 0 hb2]
            exact List.getElem_mem hb2
        | succ a2 =>
          cases b with
          | zero => omega
          | succ b2 =>
            simp only [List.getD_cons_succ]
            exact h4 a2 b2 (by omega) (by omega) (by simp at hb; omega)
      · intro b hb1 hb2
        cases b with
        | zero => omega
        | succ b2 =>
          simp only [List.getD_cons_succ]
          exact h5 b2 (by omega) (by omega)
      · simp only [findDup, innerScan_not_mem x rest (idx + 1) hx, h6]
        congr 1
        omega

/-- C3: on a non-empty integer chain, `list_remove_duplicate_int` returns
`false` and changes nothing when all payloads are distinct; otherwise it
removes exactly one node — the later node (position `t`) of the first
duplicate pair in scan order (no pair strictly earlier in the outer scan,
and no earlier inner match for the same outer node) — and returns `true`.
Iterating, `list_remove_duplicates` on `[5, 3, 5, 2, 3, 5]` terminates
with `[5, 3, 2]` (first-seen order, one occurrence each) and returns
`true`: the loop reaches its fixpoint within the fuel bound no matter how
much more fuel is supplied. -/
theorem remove_duplicate_first_pair (l : List Int) (mode : DeallocationMode) (e : Errno) (m : Nat) (hne : l ≠ []) : (l.Nodup → list_remove_duplicate_int (some l) mode e = (false, some l, e)) ∧ (¬ l.Nodup → ∃ s t, s < t ∧ t < l.length ∧ l.getD s 0 = l.getD t 0 ∧ (∀ a b, a < s → a < b → b < l.length → l.getD a 0 ≠ l.getD b 0) ∧ (∀ b, s < b → b < t → l.getD s 0 ≠ l.getD b 0) ∧ list_remove_duplicate_int (some l) mode e = (true, some (l.take t ++ l.drop (t + 1)), e)) ∧ list_remove_duplicates (some [5, 3, 5, 2, 3, 5]) mode ListDataType.INT Errno.noError = (true, some [5, 3, 2], Errno.noError) ∧ removeDupsLoop mode ListDataType.INT (7 + m) (some [5, 3, 5, 2, 3, 5]) Errno.noError = (some [5, 3, 2], Errno.noError) := by
  cases l with
  | nil => exact absurd rfl hne
  | cons x t =>
    refine ⟨?_, ?_, ?_, ?_⟩
    · intro hn
      simp [list_remove_duplicate_int, findDup_none_of_nodup _ hn 0]
    · intro hn
      obtain ⟨s, t2, h1, h2, h3, h4, h5, h6⟩ := findDup_spec_of_not_nodup _ hn 0
      rw [Nat.zero_add] at h6
      refine ⟨s, t2, h1, h2, h3, h4, h5, ?_⟩
      have hpop := pop_by_index_in_range (x :: t) mode t2 e (by omega) h2
      simp only [list_remove_duplicate_int, h6, hpop]
    · rfl
    · rw [show 7 + m = (6 + m) + 1 from by omega]
      show removeDupsLoop mode ListDataType.INT (6 + m) (some [5, 3, 2, 3, 5]) Errno.noError = (some [5, 3, 2], Errno.noError)
      rw [show 6 + m = (5 + m) + 1 from by omega]
      show removeDupsLoop mode ListDataType.INT (5 + m) (some [5, 3, 2, 3]) Errno.noError = (some [5, 3, 2], Errno.noError)
      rw [show 5 + m = (4 + m) + 1 from by omega]
      show removeDupsLoop mode ListDataType.INT (4 + m) (some [5, 3, 2]) Errno.noError = (some [5, 3, 2], Errno.noError)
      rw [show 4 + m = (3 + m) + 1 from by omega]
      rfl

/-- C3 witness: a duplicate-free two-node chain exercises the general
statement at a concrete input. -/
theorem remove_duplicate_first_pair_w : list_remove_duplicate_int (some [1, 2]) DeallocationMode.WEAK Errno.noError = (false, some [1, 2], Errno.noError) := (remove_duplicate_first_pair [1, 2] DeallocationMode.WEAK Errno.noError 0 (by decide)).1 (by decide)
